import Mathlib

/-!
Verification of the RRT path-planning core of the repository
(`Source/RRT/RRT.{hpp,cpp}`, `Source/RRT/Tree.hpp`, `Source/Level/LevelData.{hpp,cpp}`).

Shallow embedding conventions:
* `sf::Vector2i` is modelled as `ℤ × ℤ` (`Coord`).
* `float` values (the sampling cursor, `m_sampleDistance`, `m_branchDistance`)
  are modelled as `ℚ`; `std::sqrt` is modelled by `floatSqrt`, an exact
  truncation of the square root to 23 binary digits (single-precision
  mantissa width); the `(sf::Vector2i)` cast of a float vector truncates
  toward zero (`truncQ`).
* The `std::vector<RRTTree::Branch> m_nodes` occupancy table stores raw
  pointers to tree nodes; a pointer is modelled by the pointed-to node's
  payload coordinate (which identifies the node uniquely in every reachable
  state, by the occupancy invariant).  An empty slot is `none`.
* `rand() % width` / `rand() % height` in `RRT::generateBranch` are modelled
  by explicit arguments `r1 % width`, `r2 % height`; `srand` in
  `RRT::prepareTree` therefore has no counterpart.
* Out-of-range `std::vector::operator[]` accesses (undefined behaviour in the
  source) are modelled totally with `List.getD`/`List.set`; theorems are
  stated for in-bounds states, matching the asserted preconditions.
-/

/-- `TileType` from `Level/LevelData.hpp`. -/
inductive TileType where
  | Terrain
  | OutOfBounds
  | Tree
  | Swamp
  | Water
deriving DecidableEq

/-- `sf::Vector2i`. -/
abbrev Coord := ℤ × ℤ

/-- `LevelData` from `Level/LevelData.hpp`: grid dimensions plus the tile
vector.  (File loading is out of scope; `readHeader`/`readLevel` guarantee
`0 < m_width`, `0 < m_height` and `m_tileData.size() = m_width * m_height`
for every successfully loaded level, which theorems take as hypotheses.) -/
structure LevelData where
  width : ℕ
  height : ℕ
  tileData : List TileType

/-- `LevelData::getTileCount`. -/
def LevelData.getTileCount (d : LevelData) : ℕ := d.tileData.length

/-- `LevelData::getTile(x, y)`: `m_tileData[x + y * m_width]` (asserted
in-range in the source; modelled totally with a default). -/
def LevelData.getTile (d : LevelData) (x y : ℕ) : TileType :=
  d.tileData.getD (x + y * d.width) TileType.Terrain

/-- The guarantees `LevelData::loadFromFile` establishes for every level the
demo can hand to `RRT::prepareTree` (nonzero dimensions, tile count matching
the header). -/
def LevelData.WF (d : LevelData) : Prop :=
  0 < d.width ∧ 0 < d.height ∧ d.tileData.length = d.width * d.height

/-- A coordinate is an in-bounds grid coordinate: `0 ≤ x < width`,
`0 ≤ y < height` (spec §3 "GridCoordinate"). -/
def InBounds (d : LevelData) (c : Coord) : Prop :=
  0 ≤ c.1 ∧ c.1 < (d.width : ℤ) ∧ 0 ≤ c.2 ∧ c.2 < (d.height : ℤ)

instance (d : LevelData) (c : Coord) : Decidable (InBounds d c) := by
  unfold InBounds; infer_instance

/-- The flat-index computation `x + y * width` used throughout `RRT.cpp`
(the `int` components are converted to `unsigned` by the arithmetic, hence
`Int.toNat`). -/
def flatIdx (width : ℕ) (c : Coord) : ℕ := (c.1 + c.2 * (width : ℤ)).toNat

/-- `Tree<sf::Vector2i>` (`RRTTree`) from `RRT/Tree.hpp`, restricted to the
owned part of a node: its payload (`m_data`) and its owned children
(`m_branches`).  The non-owning parent back-reference is implicit in the
nesting. -/
inductive RRTTree where
  | mk (data : Coord) (branches : List RRTTree)

/-- `Tree::getData`. -/
def RRTTree.data : RRTTree → Coord
  | .mk d _ => d

/-- `Tree::getBranches`. -/
def RRTTree.branches : RRTTree → List RRTTree
  | .mk _ bs => bs

mutual
/-- The payload coordinates of every node of the (sub)tree, root first,
depth first. -/
def RRTTree.coords : RRTTree → List Coord
  | .mk data branches => data :: coordsList branches
/-- `RRTTree.coords` mapped over a branch list and concatenated. -/
def coordsList : List RRTTree → List Coord
  | [] => []
  | t :: rest => t.coords ++ coordsList rest
end

mutual
/-- `nearest->addBranch(branch)`: graft a fresh leaf holding `c` as the last
child of the (first, depth-first) node whose payload is `target`.  The C++
call site identifies the parent by pointer; in every reachable state payloads
are unique, so the coordinate identifies the same node.  The returned flag
reports whether the parent was found. -/
def addAt (t : RRTTree) (target c : Coord) : RRTTree × Bool :=
  match t with
  | .mk data branches =>
    if data = target then (.mk data (branches ++ [.mk c []]), true)
    else
      let r := addAtList branches target c
      (.mk data r.1, r.2)
/-- `addAt` over a branch list: grafts into the first subtree containing
`target`, leaving the rest untouched. -/
def addAtList (ts : List RRTTree) (target c : Coord) : List RRTTree × Bool :=
  match ts with
  | [] => ([], false)
  | t :: rest =>
    let r := addAt t target c
    if r.2 then (r.1 :: rest, true)
    else
      let r2 := addAtList rest target c
      (r.1 :: r2.1, r2.2)
end

/-- The `RRT` session state (`RRT.hpp` private data). -/
structure RRT where
  m_data : LevelData
  m_start : Coord
  m_end : Coord
  m_sampleDistance : ℚ
  m_branchDistance : ℚ
  m_nodes : List (Option Coord)
  m_tree : RRTTree

/-- `RRT::hasFinished`: both the slot of `m_start`'s flat index and the slot
of `m_end`'s flat index hold a node pointer. -/
def RRT.hasFinished (s : RRT) : Bool :=
  let width := s.m_data.width
  (s.m_nodes.getD (flatIdx width s.m_start) none).isSome &&
    (s.m_nodes.getD (flatIdx width s.m_end) none).isSome

/-- The condition of the assertion opening `RRT::prepareTree`:
`start.x >= 0 && start.x < (int) data->getWidth() && end.x >= 0 && end.y <
(int) data->getHeight()` — transcribed exactly as written in the source. -/
def prepareAssert (data : LevelData) (start stop : Coord) : Prop :=
  0 ≤ start.1 ∧ start.1 < (data.width : ℤ) ∧ 0 ≤ stop.1 ∧ stop.2 < (data.height : ℤ)

instance (data : LevelData) (start stop : Coord) :
    Decidable (prepareAssert data start stop) := by
  unfold prepareAssert; infer_instance

/-- `RRT::prepareTree`: reset the occupancy table to `getTileCount` empty
slots, install the new level data and endpoints, rebuild the tree as a lone
root holding `start`, and register the root at `start`'s flat index. -/
def RRT.prepareTree (s : RRT) (data : LevelData) (start stop : Coord) : RRT :=
  { s with
    m_data := data
    m_start := start
    m_end := stop
    m_nodes := (List.replicate data.getTileCount (none : Option Coord)).set
      (flatIdx data.width start) (some start)
    m_tree := RRTTree.mk start [] }

/-- `RRT::isValidTile`: the base-dependent passability switch. -/
def RRT.isValidTile (s : RRT) (position : Coord) (base : TileType) : Bool :=
  let type := s.m_data.getTile position.1.toNat position.2.toNat
  match base with
  | TileType.OutOfBounds | TileType.Tree =>
    !(type == TileType.OutOfBounds) && !(type == TileType.Tree)
  | TileType.Water => type == TileType.Water
  | _ => type == TileType.Terrain || type == TileType.Swamp

/-- `std::numeric_limits<int>::max()`. -/
def intMax : ℤ := 2 ^ 31 - 1

/-- `RRT::determineNearest`: linear scan of the occupancy table in ascending
flat-index order, keeping the first node of strictly smallest Manhattan
distance; the running best starts at the root pointer with distance
`INT_MAX`.  The returned pointer is modelled by the returned node's
coordinate. -/
def RRT.determineNearest (s : RRT) (position : Coord) : Coord :=
  (s.m_nodes.foldl
    (fun (acc : Coord × ℤ) (branch : Option Coord) =>
      match branch with
      | none => acc
      | some data =>
        let distance := |data.1 - position.1| + |data.2 - position.2|
        if distance < acc.2 then (data, distance) else acc)
    (s.m_tree.data, intMax)).1

/-- Models `std::sqrt` on a single-precision float: the exact square root
truncated to 23 fractional binary digits (the `float` mantissa width). -/
def floatSqrt (q : ℚ) : ℚ :=
  ((Nat.sqrt ⌊q * 2 ^ 46⌋.toNat : ℕ) : ℚ) / 2 ^ 23

/-- The `(sf::Vector2i)` cast of a float component: truncation toward
zero. -/
def truncQ (q : ℚ) : ℤ := if 0 ≤ q then ⌊q⌋ else ⌈q⌉

/-- The `lerp` lambda in `RRT::calculateBranch`:
`sf::Vector2i((sf::Vector2f) start + (sf::Vector2f) (end - start) * delta)`. -/
def lerp (start stop : Coord) (delta : ℚ) : Coord :=
  (truncQ ((start.1 : ℚ) + ((stop.1 - start.1 : ℤ) : ℚ) * delta),
   truncQ ((start.2 : ℚ) + ((stop.2 - start.2 : ℤ) : ℚ) * delta))

/-- The sampling `while` loop of `RRT::calculateBranch`.  The loop state is
the cursor `current` and the branch pointer built so far (modelled by the
branch node's payload).  The C++ loop needs no fuel; the fuel argument only
makes the recursion structural and is chosen large enough by
`RRT.calculateBranch` (the loop exits once `current` reaches
`min magnitude m_branchDistance`, which takes at most
`⌈min magnitude m_branchDistance / m_sampleDistance⌉` iterations). -/
def calcLoop (s : RRT) (start stop : Coord) (startType : TileType)
    (magnitude : ℚ) : ℕ → ℚ → Option Coord → Option Coord
  | 0, _, branch => branch
  | fuel + 1, current, branch =>
    if current < magnitude ∧ current < s.m_branchDistance then
      let current' := min (min (current + s.m_sampleDistance) magnitude)
        s.m_branchDistance
      let inc := lerp start stop (current' / magnitude)
      if inc ≠ start then
        if s.isValidTile inc startType then
          calcLoop s start stop startType magnitude fuel current' (some inc)
        else branch
      else calcLoop s start stop startType magnitude fuel current' branch
    else branch

/-- `RRT::calculateBranch`: fix the base category at `start`, measure the
segment, and run the sampling loop from cursor `0` with no branch yet. -/
def RRT.calculateBranch (s : RRT) (start stop : Coord) : Option Coord :=
  let startType := s.m_data.getTile start.1.toNat start.2.toNat
  let dx := stop.1 - start.1
  let dy := stop.2 - start.2
  let magnitude := floatSqrt ((dx * dx + dy * dy : ℤ) : ℚ)
  calcLoop s start stop startType magnitude
    (⌈min magnitude s.m_branchDistance / s.m_sampleDistance⌉.toNat + 1)
    0 none

/-- `RRT::generateBranch`, with the two `rand()` draws passed explicitly as
`r1`, `r2` (the source computes `rand() % width` and `rand() % height`). -/
def RRT.generateBranch (s : RRT) (r1 r2 : ℕ) : RRT :=
  if s.hasFinished = false ∧ s.m_start ≠ s.m_end then
    let width := s.m_data.width
    let height := s.m_data.height
    let random : Coord := ((r1 % width : ℕ), (r2 % height : ℕ))
    if s.m_nodes.getD (flatIdx width random) none = none then
      let nearest := s.determineNearest random
      match s.calculateBranch nearest random with
      | some newData =>
        let index := flatIdx width newData
        if s.m_nodes.getD index none = none then
          { s with
            m_tree := (addAt s.m_tree nearest newData).1
            m_nodes := s.m_nodes.set index (some newData) }
        else s
      | none => s
    else s
  else s

/-!  Spec-side definitions: comparators written from the specification's
words, to be proven equal to (or characteristic of) the source-derived
definitions above. -/

/-- Modelled from the spec (§3): the base-dependent passability rule.
`OutOfBounds`/`Obstacle(Tree)` as base ⇒ anything except those two;
`Water` as base ⇒ only `Water`; any other base ⇒ only `Terrain` or
`Swamp`. -/
def passableSpec (category base : TileType) : Prop :=
  match base with
  | TileType.OutOfBounds | TileType.Tree =>
    category ≠ TileType.OutOfBounds ∧ category ≠ TileType.Tree
  | TileType.Water => category = TileType.Water
  | _ => category = TileType.Terrain ∨ category = TileType.Swamp

/-- The registered (occupied) slots of the occupancy table, in ascending
flat-index order. -/
def occupiedList (s : RRT) : List Coord := s.m_nodes.filterMap id

/-- Manhattan distance `|Δx| + |Δy|` (spec §4.2 step 3). -/
def manhattan (a b : Coord) : ℤ := |a.1 - b.1| + |a.2 - b.2|

/-- Squared Euclidean distance between two grid coordinates. -/
def euclidSq (a b : Coord) : ℤ := (a.1 - b.1) ^ 2 + (a.2 - b.2) ^ 2

/-- The sampling-cursor sequence of the `calculateBranch` loop (spec §4.2
"branch construction"): start at `0`, increment by the sample step, clamped
to never exceed the lesser of `magnitude` and the maximum branch length. -/
def cursorSeq (step magnitude branchDist : ℚ) : ℕ → ℚ
  | 0 => 0
  | k + 1 =>
    min (min (cursorSeq step magnitude branchDist k + step) magnitude)
      branchDist

/-- The continuation condition of the sampling loop at cursor index `k`:
`current < magnitude && current < m_branchDistance`. -/
def contCond (step magnitude branchDist : ℚ) (k : ℕ) : Prop :=
  cursorSeq step magnitude branchDist k < magnitude ∧
    cursorSeq step magnitude branchDist k < branchDist

instance (step magnitude branchDist : ℚ) (k : ℕ) :
    Decidable (contCond step magnitude branchDist k) := by
  unfold contCond; infer_instance

/-- Search for the first index at which the sampling loop's continuation
condition fails, starting at index `k`, trying at most `fuel` further
indices. -/
def stopAux (step magnitude branchDist : ℚ) : ℕ → ℕ → ℕ
  | 0, k => k
  | fuel + 1, k =>
    if contCond step magnitude branchDist k then
      stopAux step magnitude branchDist fuel (k + 1)
    else k

/-- The number of iterations the sampling loop performs: the first index at
which the continuation condition fails. -/
def stopIdx (step magnitude branchDist : ℚ) : ℕ :=
  stopAux step magnitude branchDist ⌈min magnitude branchDist / step⌉.toNat 0

/-- The candidate coordinates the loop interpolates, in sampling order: the
`k`-th iteration moves the cursor to `cursorSeq (k+1)` and truncates the
segment point at fraction `cursorSeq (k+1) / magnitude`. -/
def specCandidates (s : RRT) (start stop : Coord) : List Coord :=
  let dx := stop.1 - start.1
  let dy := stop.2 - start.2
  let magnitude := floatSqrt ((dx * dx + dy * dy : ℤ) : ℚ)
  (List.range (stopIdx s.m_sampleDistance magnitude s.m_branchDistance)).map
    fun k =>
      lerp start stop
        (cursorSeq s.m_sampleDistance magnitude s.m_branchDistance (k + 1) /
          magnitude)

/-- Modelled from the spec (§4.2 "branch construction"): scan the candidate
stream in order with the fixed base category `startType`; a candidate equal
to `start` is skipped; a valid candidate becomes the new terminal coordinate
and scanning continues; the first invalid candidate stops the scan, which
returns the terminal reached so far (`none` if no candidate was ever
valid). -/
def scanCandidates (s : RRT) (startType : TileType) (start : Coord) :
    List Coord → Option Coord → Option Coord
  | [], acc => acc
  | c :: rest, acc =>
    if c = start then scanCandidates s startType start rest acc
    else if s.isValidTile c startType then
      scanCandidates s startType start rest (some c)
    else acc

/-- Modelled from the spec: branch construction as the candidate scan over
the clamped cursor samples. -/
def calculateBranchSpec (s : RRT) (start stop : Coord) : Option Coord :=
  scanCandidates s (s.m_data.getTile start.1.toNat start.2.toNat) start
    (specCandidates s start stop) none

/-- Component-wise betweenness: each component of `c` lies between the
corresponding components of `a` and `b`. -/
def Between (a b c : Coord) : Prop :=
  min a.1 b.1 ≤ c.1 ∧ c.1 ≤ max a.1 b.1 ∧ min a.2 b.2 ≤ c.2 ∧ c.2 ≤ max a.2 b.2

/-- The session states reachable by one `prepareTree` call (under its
documented preconditions: a successfully loaded level and in-bounds
endpoints, on an engine whose constructor assertion
`sampleDistance > 0 && branchDistance >= 1` held) followed by any sequence
of `generateBranch` calls. -/
inductive Reachable : RRT → Prop
  | prepared (s0 : RRT) (data : LevelData) (start stop : Coord)
      (hdata : data.WF) (hstart : InBounds data start)
      (hstop : InBounds data stop) (hsd : 0 < s0.m_sampleDistance)
      (hbd : 1 ≤ s0.m_branchDistance) :
      Reachable (s0.prepareTree data start stop)
  | step (s : RRT) (r1 r2 : ℕ) : Reachable s → Reachable (s.generateBranch r1 r2)

/-- The strengthened occupancy/tree invariant maintained by the growth
engine. -/
structure RRTInv (s : RRT) : Prop where
  wpos : 0 < s.m_data.width
  hpos : 0 < s.m_data.height
  tlen : s.m_data.tileData.length = s.m_data.width * s.m_data.height
  nlen : s.m_nodes.length = s.m_data.width * s.m_data.height
  sd : 0 < s.m_sampleDistance
  bd : 1 ≤ s.m_branchDistance
  slot : ∀ (i : ℕ) (c : Coord), s.m_nodes[i]? = some (some c) →
    InBounds s.m_data c ∧ flatIdx s.m_data.width c = i
  mem : ∀ c ∈ s.m_tree.coords,
    InBounds s.m_data c ∧ s.m_nodes[flatIdx s.m_data.width c]? = some (some c)
  occ : ∀ (i : ℕ) (c : Coord), s.m_nodes[i]? = some (some c) → c ∈ s.m_tree.coords
  nodup : s.m_tree.coords.Nodup

/-- The occupancy/tree consistency property as claimed (spec §8): a slot is
occupied iff some tree node holds a coordinate with that flat index, and no
two tree nodes hold the same coordinate. -/
def OccTreeConsistent (s : RRT) : Prop :=
  (∀ i < s.m_nodes.length,
    (s.m_nodes.getD i none).isSome = true ↔
      ∃ c ∈ s.m_tree.coords, flatIdx s.m_data.width c = i) ∧
  s.m_tree.coords.Nodup

/-- The state of a single `Tree<T>` C++ object (`Tree.hpp` private data):
payload, parent pointer and child pointers; pointers are heap addresses. -/
structure TreeObj where
  m_data : Coord
  m_parent : Option ℕ
  m_branches : List ℕ

/-- `Tree<T>::operator= (const Tree&)` as written in `Tree.hpp` (lines
183–191): it assigns only the branch-pointer vector (the line reads
`branches = copy.m_branches;`, where `branches` can only refer to the member
`m_branches`; no other identifier of that name is in scope) and leaves
`m_data` and `m_parent` untouched. -/
def TreeObj.copyAssign (this copy : TreeObj) : TreeObj :=
  { this with m_branches := copy.m_branches }

/-!  Helper lemmas. -/

lemma flatIdx_cast (w : ℕ) (c : Coord) (h0 : 0 ≤ c.1) (h2 : 0 ≤ c.2) :
    (flatIdx w c : ℤ) = c.1 + c.2 * w := by
  unfold flatIdx
  exact Int.toNat_of_nonneg (add_nonneg h0 (mul_nonneg h2 (by positivity)))

lemma flatIdx_lt (d : LevelData) (c : Coord) (h : InBounds d c) :
    flatIdx d.width c < d.width * d.height := by
  obtain ⟨h0, h1, h2, h3⟩ := h
  have hcast := flatIdx_cast d.width c h0 h2
  have hy : c.2 * (d.width : ℤ) ≤ ((d.height : ℤ) - 1) * d.width :=
    mul_le_mul_of_nonneg_right (by omega) (by positivity)
  have : (flatIdx d.width c : ℤ) < (d.width : ℤ) * d.height := by
    rw [hcast]; nlinarith
  exact_mod_cast this

lemma flatIdx_inj (d : LevelData) (c₁ c₂ : Coord) (h₁ : InBounds d c₁)
    (h₂ : InBounds d c₂) (heq : flatIdx d.width c₁ = flatIdx d.width c₂) :
    c₁ = c₂ := by
  obtain ⟨a0, a1, a2, a3⟩ := h₁
  obtain ⟨b0, b1, b2, b3⟩ := h₂
  have e : c₁.1 + c₁.2 * (d.width : ℤ) = c₂.1 + c₂.2 * d.width := by
    rw [← flatIdx_cast d.width c₁ a0 a2, ← flatIdx_cast d.width c₂ b0 b2,
      heq]
  have hx : c₁.1 = c₂.1 := by
    have m1 : (c₁.1 + c₁.2 * (d.width : ℤ)) % d.width = c₁.1 := by
      rw [Int.add_mul_emod_self]
      exact Int.emod_eq_of_lt a0 a1
    have m2 : (c₂.1 + c₂.2 * (d.width : ℤ)) % d.width = c₂.1 := by
      rw [Int.add_mul_emod_self]
      exact Int.emod_eq_of_lt b0 b1
    rw [← m1, ← m2, e]
  have hw : (d.width : ℤ) ≠ 0 := by
    have : (0 : ℤ) ≤ c₁.1 := a0
    intro hzero
    rw [hzero] at a1
    omega
  have hy : c₁.2 = c₂.2 := by
    have : c₁.2 * (d.width : ℤ) = c₂.2 * d.width := by omega
    exact mul_right_cancel₀ hw this
  exact Prod.ext hx hy

/-!  C1: `isValidTile` computes the base-dependent passability rule. -/

/-- C1: for every in-bounds position and every base category,
`RRT::isValidTile(position, base)` returns exactly the base-dependent
passability rule of spec §3 (`passableSpec`) applied to the terrain category
at `position`. -/
theorem isValidTile_eq_passableSpec (s : RRT) (position : Coord)
    (base : TileType) (h : InBounds s.m_data position) :
    s.isValidTile position base = true ↔
      passableSpec (s.m_data.getTile position.1.toNat position.2.toNat)
        base := by
  unfold RRT.isValidTile passableSpec
  rcases base <;>
    rcases htype : s.m_data.getTile position.1.toNat position.2.toNat <;>
      simp [htype]

theorem isValidTile_eq_passableSpec_witness :
    InBounds (⟨2, 2, List.replicate 4 TileType.Water⟩ : LevelData) (1, 1) ∧
    ((RRT.mk ⟨2, 2, List.replicate 4 TileType.Water⟩ (0, 0) (1, 1) (1/4) 15
        [] (.mk (0, 0) [])).isValidTile (1, 1) TileType.Water = true ↔
      passableSpec ((⟨2, 2, List.replicate 4 TileType.Water⟩ :
          LevelData).getTile 1 1) TileType.Water) :=
  ⟨by decide,
    isValidTile_eq_passableSpec
      (RRT.mk ⟨2, 2, List.replicate 4 TileType.Water⟩ (0, 0) (1, 1) (1/4) 15
        [] (.mk (0, 0) [])) (1, 1) TileType.Water (by decide)⟩

/-!  C7: `hasFinished` tests exactly the two endpoint slots. -/

/-- C7: in every session state `hasFinished()` is true iff the occupancy
slots at the flat indices of `m_start` and `m_end` are both occupied, and it
is true immediately after `prepareTree` whenever `start == goal`. -/
theorem hasFinished_spec :
    (∀ s : RRT, s.hasFinished = true ↔
      ((s.m_nodes.getD (flatIdx s.m_data.width s.m_start) none).isSome = true ∧
       (s.m_nodes.getD (flatIdx s.m_data.width s.m_end) none).isSome = true)) ∧
    (∀ (s0 : RRT) (data : LevelData) (a : Coord), data.WF → InBounds data a →
      (s0.prepareTree data a a).hasFinished = true) := by
  constructor
  · intro s
    unfold RRT.hasFinished
    rw [Bool.and_eq_true]
  · intro s0 data a hWF ha
    obtain ⟨hw, hh, hlen⟩ := hWF
    have hlt : flatIdx data.width a < data.getTileCount := by
      unfold LevelData.getTileCount
      rw [hlen]
      exact flatIdx_lt data a ha
    unfold RRT.hasFinished RRT.prepareTree
    simp only
    have hget :
        (((List.replicate data.getTileCount (none : Option Coord)).set
          (flatIdx data.width a) (some a)).getD (flatIdx data.width a) none)
          = some a := by
      rw [List.getD_eq_getElem?_getD, List.getElem?_set_self
        (by simpa using hlt)]
      rfl
    rw [Bool.and_eq_true]
    constructor <;> · rw [hget]; rfl

theorem hasFinished_spec_witness :
    (LevelData.WF ⟨2, 2, List.replicate 4 TileType.Terrain⟩ ∧
      InBounds (⟨2, 2, List.replicate 4 TileType.Terrain⟩ : LevelData)
        (1, 1)) ∧
    ((RRT.mk ⟨1, 1, [TileType.Terrain]⟩ (0, 0) (0, 0) (1/4) 15 []
        (.mk (0, 0) [])).prepareTree ⟨2, 2, List.replicate 4 TileType.Terrain⟩
        (1, 1) (1, 1)).hasFinished = true :=
  ⟨⟨⟨by decide, by decide, by decide⟩, by decide⟩,
    hasFinished_spec.2
      (RRT.mk ⟨1, 1, [TileType.Terrain]⟩ (0, 0) (0, 0) (1/4) 15 []
        (.mk (0, 0) []))
      ⟨2, 2, List.replicate 4 TileType.Terrain⟩ (1, 1)
      ⟨by decide, by decide, by decide⟩ (by decide)⟩

/-!  C8: `Tree<T>` copy assignment is not a deep copy (code bug). -/

/-- C8 (evaluation of the code at a failing input): copy-assigning a source
node whose payload is `(1, 2)` and whose only child lives at heap address `7`
onto a default-constructed destination leaves the destination payload at its
old value `(0, 0)` — the payload is not copied at all — and makes the
destination's child-pointer vector the very same address list `[7]` as the
source's, so the "copy" aliases (shares) the source's child nodes instead of
deep-copying them.  (Moreover the assignment's body reads
`branches = copy.m_branches;`, naming an identifier that does not exist —
the member is `m_branches` — so the template does not even instantiate.) -/
theorem copyAssign_not_deep :
    (TreeObj.copyAssign ⟨(0, 0), none, []⟩ ⟨(1, 2), none, [7]⟩).m_data
        = (0, 0) ∧
    (TreeObj.copyAssign ⟨(0, 0), none, []⟩ ⟨(1, 2), none, [7]⟩).m_branches
        = [7] ∧
    (TreeObj.copyAssign ⟨(0, 0), none, []⟩ ⟨(1, 2), none, [7]⟩).m_data
        ≠ (1, 2) :=
  ⟨rfl, rfl, by decide⟩

/-!  C9: the `prepareTree` assertion checks the wrong components
(code bug). -/

/-- C9 (evaluation of the code at failing inputs): the assertion at the top
of `RRT::prepareTree` is
`start.x >= 0 && start.x < width && end.x >= 0 && end.y < height`; it never
checks `start.y`, never checks `end.x < width`, and never checks
`end.y >= 0`.  On a 5×5 grid it therefore accepts `start = (0, 7)`
(`start.y` out of bounds), `end = (7, 0)` (`end.x` out of bounds) and
`end = (0, -1)` (`end.y` negative), all of which violate the documented
precondition that both coordinates be in-bounds. -/
theorem prepareAssert_accepts_out_of_bounds :
    (prepareAssert ⟨5, 5, List.replicate 25 TileType.Terrain⟩ (0, 7) (0, 0) ∧
      ¬ InBounds ⟨5, 5, List.replicate 25 TileType.Terrain⟩ (0, 7)) ∧
    (prepareAssert ⟨5, 5, List.replicate 25 TileType.Terrain⟩ (0, 0) (7, 0) ∧
      ¬ InBounds ⟨5, 5, List.replicate 25 TileType.Terrain⟩ (7, 0)) ∧
    (prepareAssert ⟨5, 5, List.replicate 25 TileType.Terrain⟩ (0, 0) (0, -1) ∧
      ¬ InBounds ⟨5, 5, List.replicate 25 TileType.Terrain⟩ (0, -1)) := by
  decide

/-!  C4: `determineNearest` picks the first occupied slot of minimal
Manhattan distance. -/

/-- The loop body of `RRT::determineNearest` restricted to an occupied
slot. -/
def nearStep (position : Coord) (acc : Coord × ℤ) (data : Coord) :
    Coord × ℤ :=
  let distance := |data.1 - position.1| + |data.2 - position.2|
  if distance < acc.2 then (data, distance) else acc

lemma determineNearest_eq_fold (s : RRT) (position : Coord) :
    s.determineNearest position =
      ((occupiedList s).foldl (nearStep position)
        (s.m_tree.data, intMax)).1 := by
  unfold RRT.determineNearest occupiedList
  congr 1
  generalize (s.m_tree.data, intMax) = acc
  induction s.m_nodes generalizing acc with
  | nil => rfl
  | cons hd tl ih =>
    cases hd with
    | none => simpa using ih _
    | some d => simpa [nearStep] using ih _

lemma nearFold_spec (pos : Coord) (l : List Coord) (acc : Coord × ℤ) :
    (l.foldl (nearStep pos) acc = acc ∧ ∀ c ∈ l, acc.2 ≤ manhattan c pos) ∨
    (∃ k, ∃ hk : k < l.length,
      l.foldl (nearStep pos) acc =
        (l.get ⟨k, hk⟩, manhattan (l.get ⟨k, hk⟩) pos) ∧
      manhattan (l.get ⟨k, hk⟩) pos < acc.2 ∧
      (∀ c ∈ l, manhattan (l.get ⟨k, hk⟩) pos ≤ manhattan c pos) ∧
      (∀ j, ∀ hj : j < l.length, j < k →
        manhattan (l.get ⟨k, hk⟩) pos < manhattan (l.get ⟨j, hj⟩) pos)) := by
  induction l generalizing acc with
  | nil => exact Or.inl ⟨rfl, by simp⟩
  | cons c t ih =>
    have hstep : nearStep pos acc c =
        if manhattan c pos < acc.2 then (c, manhattan c pos) else acc := by
      simp [nearStep, manhattan]
    by_cases hc : manhattan c pos < acc.2
    · have hfold : (c :: t).foldl (nearStep pos) acc =
          t.foldl (nearStep pos) (c, manhattan c pos) := by
        simp [List.foldl_cons, hstep, hc]
      rcases ih (c, manhattan c pos) with ⟨heq, hge⟩ | ⟨k, hk, heq, hlt, hmin, hfirst⟩
      · refine Or.inr ⟨0, by simp, ?_, hc, ?_, ?_⟩
        · rw [hfold, heq]; rfl
        · intro x hx
          rcases hx with _ | hx
          · exact le_refl _
          · exact hge x (by assumption)
        · intro j hj hj0
          omega
      · refine Or.inr ⟨k + 1, by simpa using hk, ?_, ?_, ?_, ?_⟩
        · rw [hfold]; exact heq
        · exact lt_trans hlt hc
        · intro x hx
          rcases hx with _ | hx
          · exact le_of_lt hlt
          · exact hmin x (by assumption)
        · intro j hj hjk
          cases j with
          | zero => exact hlt
          | succ j' => exact hfirst j' (by simpa using hj) (by omega)
    · have hfold : (c :: t).foldl (nearStep pos) acc =
          t.foldl (nearStep pos) acc := by
        simp [List.foldl_cons, hstep, hc]
      rcases ih acc with ⟨heq, hge⟩ | ⟨k, hk, heq, hlt, hmin, hfirst⟩
      · refine Or.inl ⟨by rw [hfold, heq], ?_⟩
        intro x hx
        rcases hx with _ | hx
        · exact le_of_not_lt hc
        · exact hge x (by assumption)
      · refine Or.inr ⟨k + 1, by simpa using hk, ?_, hlt, ?_, ?_⟩
        · rw [hfold]; exact heq
        · intro x hx
          rcases hx with _ | hx
          · exact le_of_lt (lt_of_lt_of_le hlt (le_of_not_lt hc))
          · exact hmin x (by assumption)
        · intro j hj hjk
          cases j with
          | zero => exact lt_of_lt_of_le hlt (le_of_not_lt hc)
          | succ j' => exact hfirst j' (by simpa using hj) (by omega)

/-- C4: whenever at least one slot of the occupancy table is occupied and
every registered node's Manhattan distance to the sample `r` is below
`INT_MAX`, `determineNearest` returns the registered node at position `k` of
the occupied-slot list (taken in ascending flat-index order) such that its
Manhattan distance to `r` is minimal among all registered nodes and every
earlier occupied slot has strictly larger distance — i.e. the first occupied
slot attaining the minimum wins ties. -/
theorem determineNearest_first_min (s : RRT) (r : Coord)
    (hne : occupiedList s ≠ [])
    (hbound : ∀ c ∈ occupiedList s, manhattan c r < intMax) :
    ∃ k, ∃ hk : k < (occupiedList s).length,
      s.determineNearest r = (occupiedList s).get ⟨k, hk⟩ ∧
      (∀ c ∈ occupiedList s,
        manhattan ((occupiedList s).get ⟨k, hk⟩) r ≤ manhattan c r) ∧
      (∀ j, ∀ hj : j < (occupiedList s).length, j < k →
        manhattan ((occupiedList s).get ⟨k, hk⟩) r <
          manhattan ((occupiedList s).get ⟨j, hj⟩) r) := by
  rcases nearFold_spec r (occupiedList s) (s.m_tree.data, intMax) with
    ⟨_, hge⟩ | ⟨k, hk, heq, _, hmin, hfirst⟩
  · exfalso
    rcases List.exists_mem_of_ne_nil _ hne with ⟨c, hc⟩
    exact absurd (hge c hc) (not_le_of_lt (hbound c hc))
  · exact ⟨k, hk, by rw [determineNearest_eq_fold, heq], hmin, hfirst⟩

theorem determineNearest_first_min_witness :
    (occupiedList (RRT.mk ⟨3, 1, List.replicate 3 TileType.Terrain⟩ (0, 0)
        (2, 0) (1/4) 15 [some (0, 0), none, some (2, 0)] (.mk (0, 0) []))
      ≠ [] ∧
    ∀ c ∈ occupiedList (RRT.mk ⟨3, 1, List.replicate 3 TileType.Terrain⟩
        (0, 0) (2, 0) (1/4) 15 [some (0, 0), none, some (2, 0)]
        (.mk (0, 0) [])), manhattan c (1, 0) < intMax) ∧
    (∃ k, ∃ hk : k < (occupiedList (RRT.mk
        ⟨3, 1, List.replicate 3 TileType.Terrain⟩ (0, 0) (2, 0) (1/4) 15
        [some (0, 0), none, some (2, 0)] (.mk (0, 0) []))).length,
      (RRT.mk ⟨3, 1, List.replicate 3 TileType.Terrain⟩ (0, 0) (2, 0) (1/4)
        15 [some (0, 0), none, some (2, 0)]
        (.mk (0, 0) [])).determineNearest (1, 0) =
        (occupiedList (RRT.mk ⟨3, 1, List.replicate 3 TileType.Terrain⟩
          (0, 0) (2, 0) (1/4) 15 [some (0, 0), none, some (2, 0)]
          (.mk (0, 0) []))).get ⟨k, hk⟩ ∧
      (∀ c ∈ occupiedList (RRT.mk ⟨3, 1, List.replicate 3 TileType.Terrain⟩
          (0, 0) (2, 0) (1/4) 15 [some (0, 0), none, some (2, 0)]
          (.mk (0, 0) [])),
        manhattan ((occupiedList (RRT.mk
          ⟨3, 1, List.replicate 3 TileType.Terrain⟩ (0, 0) (2, 0) (1/4) 15
          [some (0, 0), none, some (2, 0)] (.mk (0, 0) []))).get ⟨k, hk⟩)
          (1, 0) ≤ manhattan c (1, 0)) ∧
      (∀ j, ∀ hj : j < (occupiedList (RRT.mk
          ⟨3, 1, List.replicate 3 TileType.Terrain⟩ (0, 0) (2, 0) (1/4) 15
          [some (0, 0), none, some (2, 0)] (.mk (0, 0) []))).length, j < k →
        manhattan ((occupiedList (RRT.mk
          ⟨3, 1, List.replicate 3 TileType.Terrain⟩ (0, 0) (2, 0) (1/4) 15
          [some (0, 0), none, some (2, 0)] (.mk (0, 0) []))).get ⟨k, hk⟩)
          (1, 0) <
          manhattan ((occupiedList (RRT.mk
            ⟨3, 1, List.replicate 3 TileType.Terrain⟩ (0, 0) (2, 0) (1/4) 15
            [some (0, 0), none, some (2, 0)] (.mk (0, 0) []))).get ⟨j, hj⟩)
            (1, 0))) :=
  ⟨⟨by decide, by decide⟩,
    determineNearest_first_min
      (RRT.mk ⟨3, 1, List.replicate 3 TileType.Terrain⟩ (0, 0) (2, 0) (1/4)
        15 [some (0, 0), none, some (2, 0)] (.mk (0, 0) []))
      (1, 0) (by decide) (by decide)⟩

/-!  C5: the sampling loop of `calculateBranch` is the spec's candidate
scan. -/

lemma floatSqrt_nonneg (q : ℚ) : 0 ≤ floatSqrt q := by
  unfold floatSqrt
  positivity

lemma cursorSeq_succ (step mag B : ℚ) (k : ℕ) :
    cursorSeq step mag B (k + 1) =
      min (cursorSeq step mag B k + step) (min mag B) := by
  simp only [cursorSeq, min_assoc]

lemma cursorSeq_nonneg (step mag B : ℚ) (hstep : 0 < step) (hmag : 0 ≤ mag)
    (hB : 0 ≤ B) (k : ℕ) : 0 ≤ cursorSeq step mag B k := by
  induction k with
  | zero => exact le_refl 0
  | succ k ih =>
    rw [cursorSeq_succ]
    exact le_min (by linarith) (le_min hmag hB)

lemma cursorSeq_lb (step mag B : ℚ) (hstep : 0 < step) (k : ℕ) :
    min ((k : ℚ) * step) (min mag B) ≤ cursorSeq step mag B k := by
  induction k with
  | zero =>
    simp only [cursorSeq, Nat.cast_zero, zero_mul]
    exact min_le_left _ _
  | succ k ih =>
    rw [cursorSeq_succ]
    refine le_min ?_ (min_le_right _ _)
    rcases le_total ((k : ℚ) * step) (min mag B) with h | h
    · rw [min_eq_left h] at ih
      exact le_trans (min_le_left _ _) (by push_cast; linarith)
    · rw [min_eq_right h] at ih
      exact le_trans (min_le_right _ _) (by linarith)

lemma contCond_mono (step mag B : ℚ) (hstep : 0 < step) (k : ℕ)
    (h : ¬ contCond step mag B k) : ¬ contCond step mag B (k + 1) := by
  rintro ⟨h1, h2⟩
  rw [contCond, not_and_or, not_lt, not_lt] at h
  rw [cursorSeq_succ, min_lt_iff] at h1 h2
  rcases min_choice mag B with hch | hch <;> rw [hch] at h1 h2 <;>
    rcases h with h | h <;> rcases h1 with h1 | h1 <;>
      rcases h2 with h2 | h2 <;> linarith

lemma contCond_stays (step mag B : ℚ) (hstep : 0 < step) (k j : ℕ)
    (hkj : k ≤ j) (h : ¬ contCond step mag B k) : ¬ contCond step mag B j := by
  induction j with
  | zero =>
    have : k = 0 := Nat.le_zero.mp hkj
    rwa [this] at h
  | succ j ih =>
    rcases Nat.lt_or_ge k (j + 1) with hlt | hge
    · exact contCond_mono step mag B hstep j (ih (Nat.lt_succ_iff.mp hlt))
    · have : k = j + 1 := le_antisymm hkj hge
      rwa [this] at h

lemma stopAux_spec (step mag B : ℚ) (fuel : ℕ) : ∀ k : ℕ,
    ¬ contCond step mag B (k + fuel) →
    k ≤ stopAux step mag B fuel k ∧
    (∀ j, k ≤ j → j < stopAux step mag B fuel k → contCond step mag B j) ∧
    ¬ contCond step mag B (stopAux step mag B fuel k) := by
  induction fuel with
  | zero =>
    intro k hk
    refine ⟨le_refl k, ?_, by simpa using hk⟩
    intro j h1 h2
    simp only [stopAux] at h2
    omega
  | succ fuel ih =>
    intro k hk
    by_cases hc : contCond step mag B k
    · have hk' : ¬ contCond step mag B (k + 1 + fuel) := by
        have : k + 1 + fuel = k + (fuel + 1) := by omega
        rwa [this]
      obtain ⟨ha, hb, hcend⟩ := ih (k + 1) hk'
      have hunf : stopAux step mag B (fuel + 1) k =
          stopAux step mag B fuel (k + 1) := by
        simp only [stopAux, if_pos hc]
      refine ⟨by omega, ?_, by rwa [hunf]⟩
      intro j h1 h2
      rw [hunf] at h2
      rcases Nat.eq_or_lt_of_le h1 with rfl | hlt
      · exact hc
      · exact hb j hlt h2
    · have hunf : stopAux step mag B (fuel + 1) k = k := by
        simp only [stopAux, if_neg hc]
      rw [hunf]
      exact ⟨le_refl k, fun j h1 h2 => absurd h1 (by omega), hc⟩

lemma contCond_bound (step mag B : ℚ) (hstep : 0 < step) (hmag : 0 ≤ mag)
    (hB : 0 ≤ B) :
    ¬ contCond step mag B ⌈min mag B / step⌉.toNat := by
  set bound := ⌈min mag B / step⌉.toNat with hbound
  have hbs : min mag B ≤ (bound : ℚ) * step := by
    rcases le_or_lt (min mag B) 0 with h | h
    · have : (0 : ℚ) ≤ (bound : ℚ) * step := by positivity
      linarith
    · have h2 : (0 : ℤ) ≤ ⌈min mag B / step⌉ :=
        le_of_lt (Int.ceil_pos.mpr (by positivity))
      have hcast : ((bound : ℕ) : ℚ) = ((⌈min mag B / step⌉ : ℤ) : ℚ) := by
        rw [hbound]
        exact_mod_cast congrArg (fun z : ℤ => (z : ℚ))
          (Int.toNat_of_nonneg h2)
      have h4 : min mag B / step ≤ (bound : ℚ) := by
        rw [hcast]
        exact Int.le_ceil _
      calc min mag B = min mag B / step * step := by field_simp
        _ ≤ (bound : ℚ) * step :=
          mul_le_mul_of_nonneg_right h4 (le_of_lt hstep)
  have hlb := cursorSeq_lb step mag B hstep bound
  rw [min_eq_right hbs] at hlb
  rintro ⟨h1, h2⟩
  rcases min_le_iff.mp hlb with h | h <;> linarith

lemma stopIdx_spec (step mag B : ℚ) (hstep : 0 < step) (hmag : 0 ≤ mag)
    (hB : 0 ≤ B) :
    (∀ j, j < stopIdx step mag B → contCond step mag B j) ∧
    (∀ j, stopIdx step mag B ≤ j → ¬ contCond step mag B j) ∧
    stopIdx step mag B ≤ ⌈min mag B / step⌉.toNat := by
  have hbnd := contCond_bound step mag B hstep hmag hB
  obtain ⟨h1, h2, h3⟩ := stopAux_spec step mag B
    ⌈min mag B / step⌉.toNat 0 (by simpa using hbnd)
  refine ⟨fun j hj => h2 j (Nat.zero_le j) hj, ?_, ?_⟩
  · intro j hj
    exact contCond_stays step mag B hstep _ j hj h3
  · by_contra hgt
    push_neg at hgt
    exact hbnd (h2 _ (Nat.zero_le _) hgt)

lemma calcLoop_eq_scan (s : RRT) (a b : Coord) (ty : TileType) (mag : ℚ)
    (hstep : 0 < s.m_sampleDistance)
    (hfirst : ∀ j, j < stopIdx s.m_sampleDistance mag s.m_branchDistance →
      contCond s.m_sampleDistance mag s.m_branchDistance j)
    (hstays : ∀ j, stopIdx s.m_sampleDistance mag s.m_branchDistance ≤ j →
      ¬ contCond s.m_sampleDistance mag s.m_branchDistance j) :
    ∀ (fuel k : ℕ) (acc : Option Coord),
      stopIdx s.m_sampleDistance mag s.m_branchDistance ≤ k + fuel →
      calcLoop s a b ty mag fuel
          (cursorSeq s.m_sampleDistance mag s.m_branchDistance k) acc =
        scanCandidates s ty a
          ((List.range' k
              (stopIdx s.m_sampleDistance mag s.m_branchDistance - k)).map
            (fun j => lerp a b
              (cursorSeq s.m_sampleDistance mag s.m_branchDistance (j + 1) /
                mag))) acc := by
  set step := s.m_sampleDistance with hstepdef
  set B := s.m_branchDistance with hBdef
  set N := stopIdx step mag B with hN
  intro fuel
  induction fuel with
  | zero =>
    intro k acc hk
    have : N - k = 0 := by omega
    rw [this]
    simp [calcLoop, scanCandidates]
  | succ fuel ih =>
    intro k acc hk
    by_cases hc : contCond step mag B k
    · have hkN : k < N := by
        by_contra hcon
        push_neg at hcon
        exact (hstays k hcon) hc
      have hsplit : N - k = (N - (k + 1)) + 1 := by omega
      rw [hsplit, List.range'_succ, List.map_cons]
      obtain ⟨hc1, hc2⟩ := hc
      show (if cursorSeq step mag B k < mag ∧ cursorSeq step mag B k < B then
          _ else acc) = _
      rw [if_pos ⟨hc1, hc2⟩]
      have hcur : min (min (cursorSeq step mag B k + step) mag) B =
          cursorSeq step mag B (k + 1) := rfl
      simp only [hcur]
      by_cases heq : lerp a b (cursorSeq step mag B (k + 1) / mag) = a
      · rw [if_neg (by simpa using heq)]
        rw [scanCandidates, if_pos heq]
        exact ih (k + 1) acc (by omega)
      · rw [if_pos heq]
        rw [scanCandidates, if_neg heq]
        by_cases hval :
            s.isValidTile (lerp a b (cursorSeq step mag B (k + 1) / mag)) ty =
              true
        · rw [if_pos hval, if_pos hval]
          exact ih (k + 1) _ (by omega)
        · rw [if_neg hval, if_neg hval]
    · have hkN : N ≤ k := by
        by_contra hcon
        push_neg at hcon
        exact hc (hfirst k hcon)
      have : N - k = 0 := by omega
      rw [this]
      have hcond : ¬ (cursorSeq step mag B k < mag ∧
          cursorSeq step mag B k < B) := hc
      show (if cursorSeq step mag B k < mag ∧ cursorSeq step mag B k < B then
          _ else acc) = _
      rw [if_neg hcond]
      simp [scanCandidates]

lemma calculateBranch_eq_spec (s : RRT) (a b : Coord)
    (hstep : 0 < s.m_sampleDistance) (hB : 1 ≤ s.m_branchDistance) :
    s.calculateBranch a b = calculateBranchSpec s a b := by
  unfold RRT.calculateBranch calculateBranchSpec specCandidates
  simp only
  set ty := s.m_data.getTile a.1.toNat a.2.toNat with hty
  set mag := floatSqrt
    (((b.1 - a.1) * (b.1 - a.1) + (b.2 - a.2) * (b.2 - a.2) : ℤ) : ℚ)
    with hmagdef
  have hmag : 0 ≤ mag := floatSqrt_nonneg _
  have hB0 : (0 : ℚ) ≤ s.m_branchDistance := by linarith
  obtain ⟨hfirst, hstays, hle⟩ :=
    stopIdx_spec s.m_sampleDistance mag s.m_branchDistance hstep hmag hB0
  have key := calcLoop_eq_scan s a b ty mag hstep hfirst hstays
    (⌈min mag s.m_branchDistance / s.m_sampleDistance⌉.toNat + 1) 0 none
    (by omega)
  have h0 : cursorSeq s.m_sampleDistance mag s.m_branchDistance 0 = 0 := rfl
  rw [h0] at key
  rw [key, List.range_eq_range']
  simp

lemma calculateBranch_self (s : RRT) (a : Coord) :
    s.calculateBranch a a = none := by
  unfold RRT.calculateBranch
  simp only [sub_self, mul_zero, zero_mul, add_zero, Int.cast_zero]
  have hmag : floatSqrt (0 : ℚ) = 0 := by
    unfold floatSqrt
    rw [show (0 : ℚ) * 2 ^ 46 = 0 by norm_num, Int.floor_zero]
    simp
  rw [hmag, calcLoop, if_neg (by simp)]

lemma scanCandidates_result (s : RRT) (ty : TileType) (a : Coord) :
    ∀ (l : List Coord) (acc : Option Coord) (c : Coord),
      scanCandidates s ty a l acc = some c → c ∈ l ∨ acc = some c := by
  intro l
  induction l with
  | nil =>
    intro acc c h
    exact Or.inr (by simpa [scanCandidates] using h)
  | cons hd tl ih =>
    intro acc c h
    rw [scanCandidates] at h
    by_cases h1 : hd = a
    · rw [if_pos h1] at h
      rcases ih acc c h with hmem | hacc
      · exact Or.inl (List.mem_cons_of_mem hd hmem)
      · exact Or.inr hacc
    · rw [if_neg h1] at h
      by_cases h2 : s.isValidTile hd ty = true
      · rw [if_pos h2] at h
        rcases ih (some hd) c h with hmem | hacc
        · exact Or.inl (List.mem_cons_of_mem hd hmem)
        · exact Or.inl (by simp at hacc; rw [hacc]; exact List.mem_cons_self c tl)
      · rw [if_neg h2] at h
        exact Or.inr h

/-- C5: branch construction from `start` toward a target equals the spec's
candidate scan: the base category is fixed once from the terrain at `start`
(`calculateBranchSpec` passes the same `startType` to every validity test),
the terminal coordinate advances exactly on valid candidates, the first
invalid candidate stops the scan immediately with the last terminal reached
(`none` if no candidate was ever valid), and a zero-magnitude construction
(`start = target`) produces no branch at all. -/
theorem calculateBranch_eq_scan_spec (s : RRT) (a b : Coord)
    (hstep : 0 < s.m_sampleDistance) (hB : 1 ≤ s.m_branchDistance) :
    s.calculateBranch a b = calculateBranchSpec s a b ∧
    (a = b → s.calculateBranch a b = none) :=
  ⟨calculateBranch_eq_spec s a b hstep hB,
    fun h => h ▸ calculateBranch_self s a⟩

theorem calculateBranch_eq_scan_spec_witness :
    ((0 : ℚ) < (RRT.mk ⟨2, 2, List.replicate 4 TileType.Terrain⟩ (0, 0)
        (1, 1) (1/4) 15 [some (0, 0), none, none, none]
        (.mk (0, 0) [])).m_sampleDistance ∧
      (1 : ℚ) ≤ (RRT.mk ⟨2, 2, List.replicate 4 TileType.Terrain⟩ (0, 0)
        (1, 1) (1/4) 15 [some (0, 0), none, none, none]
        (.mk (0, 0) [])).m_branchDistance) ∧
    ((RRT.mk ⟨2, 2, List.replicate 4 TileType.Terrain⟩ (0, 0) (1, 1) (1/4) 15
        [some (0, 0), none, none, none]
        (.mk (0, 0) [])).calculateBranch (0, 0) (1, 1) =
      calculateBranchSpec (RRT.mk ⟨2, 2, List.replicate 4 TileType.Terrain⟩
        (0, 0) (1, 1) (1/4) 15 [some (0, 0), none, none, none]
        (.mk (0, 0) [])) (0, 0) (1, 1) ∧
      (((0, 0) : Coord) = ((1, 1) : Coord) →
        (RRT.mk ⟨2, 2, List.replicate 4 TileType.Terrain⟩ (0, 0) (1, 1) (1/4)
          15 [some (0, 0), none, none, none]
          (.mk (0, 0) [])).calculateBranch (0, 0) (1, 1) = none)) :=
  ⟨⟨by norm_num, by norm_num⟩,
    calculateBranch_eq_scan_spec
      (RRT.mk ⟨2, 2, List.replicate 4 TileType.Terrain⟩ (0, 0) (1, 1) (1/4)
        15 [some (0, 0), none, none, none] (.mk (0, 0) []))
      (0, 0) (1, 1) (by norm_num) (by norm_num)⟩

/-!  C10: every interpolated-and-truncated candidate lies between the
endpoints component-wise, hence is in-bounds. -/

lemma truncQ_bounds (x y : ℤ) (t : ℚ) (h0 : 0 ≤ t) (h1 : t ≤ 1) (hx : 0 ≤ x)
    (hy : 0 ≤ y) :
    min x y ≤ truncQ ((x : ℚ) + ((y - x : ℤ) : ℚ) * t) ∧
    truncQ ((x : ℚ) + ((y - x : ℤ) : ℚ) * t) ≤ max x y := by
  set v : ℚ := (x : ℚ) + ((y - x : ℤ) : ℚ) * t with hv
  have hlo : ((min x y : ℤ) : ℚ) ≤ v := by
    rcases le_total x y with h | h
    · rw [min_eq_left h, hv]
      push_cast
      nlinarith [sub_nonneg.mpr (show (x : ℚ) ≤ y by exact_mod_cast h)]
    · rw [min_eq_right h, hv]
      push_cast
      nlinarith [sub_nonneg.mpr (show (y : ℚ) ≤ x by exact_mod_cast h)]
  have hhi : v ≤ ((max x y : ℤ) : ℚ) := by
    rcases le_total x y with h | h
    · rw [max_eq_right h, hv]
      push_cast
      nlinarith [sub_nonneg.mpr (show (x : ℚ) ≤ y by exact_mod_cast h)]
    · rw [max_eq_left h, hv]
      push_cast
      nlinarith [sub_nonneg.mpr (show (y : ℚ) ≤ x by exact_mod_cast h)]
  have hv0 : (0 : ℚ) ≤ v := by
    have : (0 : ℚ) ≤ ((min x y : ℤ) : ℚ) := by
      have : (0 : ℤ) ≤ min x y := le_min hx hy
      exact_mod_cast this
    linarith
  have htr : truncQ v = ⌊v⌋ := if_pos hv0
  constructor
  · rw [htr]
    exact Int.le_floor.mpr hlo
  · rw [htr]
    have : (⌊v⌋ : ℚ) ≤ ((max x y : ℤ) : ℚ) := le_trans (Int.floor_le v) hhi
    exact_mod_cast this

lemma lerp_between (a b : Coord) (t : ℚ) (h0 : 0 ≤ t) (h1 : t ≤ 1)
    (ha1 : 0 ≤ a.1) (ha2 : 0 ≤ a.2) (hb1 : 0 ≤ b.1) (hb2 : 0 ≤ b.2) :
    Between a b (lerp a b t) := by
  obtain ⟨l1, u1⟩ := truncQ_bounds a.1 b.1 t h0 h1 ha1 hb1
  obtain ⟨l2, u2⟩ := truncQ_bounds a.2 b.2 t h0 h1 ha2 hb2
  exact ⟨l1, u1, l2, u2⟩

lemma between_inBounds (d : LevelData) (a b c : Coord) (ha : InBounds d a)
    (hb : InBounds d b) (h : Between a b c) : InBounds d c := by
  obtain ⟨a0, a1, a2, a3⟩ := ha
  obtain ⟨b0, b1, b2, b3⟩ := hb
  obtain ⟨c0, c1, c2, c3⟩ := h
  refine ⟨?_, ?_, ?_, ?_⟩
  · calc (0 : ℤ) ≤ min a.1 b.1 := le_min a0 b0
      _ ≤ c.1 := c0
  · calc c.1 ≤ max a.1 b.1 := c1
      _ < d.width := max_lt a1 b1
  · calc (0 : ℤ) ≤ min a.2 b.2 := le_min a2 b2
      _ ≤ c.2 := c2
  · calc c.2 ≤ max a.2 b.2 := c3
      _ < d.height := max_lt a3 b3

lemma specCandidates_between (s : RRT) (a b : Coord)
    (hstep : 0 < s.m_sampleDistance) (hB : 1 ≤ s.m_branchDistance)
    (ha1 : 0 ≤ a.1) (ha2 : 0 ≤ a.2) (hb1 : 0 ≤ b.1) (hb2 : 0 ≤ b.2) :
    ∀ c ∈ specCandidates s a b, Between a b c := by
  intro c hc
  unfold specCandidates at hc
  simp only [List.mem_map, List.mem_range] at hc
  obtain ⟨k, hkN, rfl⟩ := hc
  set mag := floatSqrt
    (((b.1 - a.1) * (b.1 - a.1) + (b.2 - a.2) * (b.2 - a.2) : ℤ) : ℚ)
    with hmagdef
  have hmag : 0 ≤ mag := floatSqrt_nonneg _
  have hB0 : (0 : ℚ) ≤ s.m_branchDistance := by linarith
  obtain ⟨hfirst, _, _⟩ :=
    stopIdx_spec s.m_sampleDistance mag s.m_branchDistance hstep hmag hB0
  obtain ⟨hck1, hck2⟩ := hfirst k hkN
  have hcur0 : 0 ≤ cursorSeq s.m_sampleDistance mag s.m_branchDistance k :=
    cursorSeq_nonneg s.m_sampleDistance mag s.m_branchDistance hstep hmag hB0 k
  have hmagpos : 0 < mag := lt_of_le_of_lt hcur0 hck1
  have hc1 : 0 ≤ cursorSeq s.m_sampleDistance mag s.m_branchDistance (k + 1) :=
    cursorSeq_nonneg s.m_sampleDistance mag s.m_branchDistance hstep hmag hB0
      (k + 1)
  have hcmag : cursorSeq s.m_sampleDistance mag s.m_branchDistance (k + 1) ≤
      mag := by
    rw [cursorSeq_succ]
    exact le_trans (min_le_right _ _) (min_le_left _ _)
  have ht0 : 0 ≤ cursorSeq s.m_sampleDistance mag s.m_branchDistance (k + 1) /
      mag := div_nonneg hc1 hmag
  have ht1 : cursorSeq s.m_sampleDistance mag s.m_branchDistance (k + 1) /
      mag ≤ 1 := (div_le_one hmagpos).mpr hcmag
  exact lerp_between a b _ ht0 ht1 ha1 ha2 hb1 hb2

lemma calculateBranch_candidates_inBounds_aux (s : RRT) (a b : Coord)
    (hstep : 0 < s.m_sampleDistance) (hB : 1 ≤ s.m_branchDistance)
    (ha : InBounds s.m_data a) (hb : InBounds s.m_data b) :
    (∀ c ∈ specCandidates s a b, Between a b c ∧ InBounds s.m_data c) ∧
    (∀ c, s.calculateBranch a b = some c →
      Between a b c ∧ InBounds s.m_data c) := by
  have hbtw := specCandidates_between s a b hstep hB ha.1 ha.2.2.1 hb.1
    hb.2.2.1
  have hmain : ∀ c ∈ specCandidates s a b,
      Between a b c ∧ InBounds s.m_data c := by
    intro c hc
    exact ⟨hbtw c hc, between_inBounds s.m_data a b c ha hb (hbtw c hc)⟩
  refine ⟨hmain, ?_⟩
  intro c hc
  rw [calculateBranch_eq_spec s a b hstep hB] at hc
  unfold calculateBranchSpec at hc
  rcases scanCandidates_result s _ a (specCandidates s a b) none c hc with
    hmem | habs
  · exact hmain c hmem
  · cases habs

/-- C10: during branch construction between in-bounds endpoints, every
interpolated-and-truncated candidate coordinate lies component-wise between
the endpoints and is itself in-bounds; in particular any branch the
construction returns (hence any grafted node's coordinate) is an in-bounds
grid coordinate. -/
theorem calculateBranch_candidates_inBounds (s : RRT) (a b : Coord)
    (hstep : 0 < s.m_sampleDistance) (hB : 1 ≤ s.m_branchDistance)
    (ha : InBounds s.m_data a) (hb : InBounds s.m_data b) :
    (∀ c ∈ specCandidates s a b, Between a b c ∧ InBounds s.m_data c) ∧
    (∀ c, s.calculateBranch a b = some c →
      Between a b c ∧ InBounds s.m_data c) :=
  calculateBranch_candidates_inBounds_aux s a b hstep hB ha hb

theorem calculateBranch_candidates_inBounds_witness :
    ((0 : ℚ) < (RRT.mk ⟨2, 2, List.replicate 4 TileType.Terrain⟩ (0, 0)
        (1, 1) (1/4) 15 [some (0, 0), none, none, none]
        (.mk (0, 0) [])).m_sampleDistance ∧
      (1 : ℚ) ≤ (RRT.mk ⟨2, 2, List.replicate 4 TileType.Terrain⟩ (0, 0)
        (1, 1) (1/4) 15 [some (0, 0), none, none, none]
        (.mk (0, 0) [])).m_branchDistance ∧
      InBounds (⟨2, 2, List.replicate 4 TileType.Terrain⟩ : LevelData) (0, 0) ∧
      InBounds (⟨2, 2, List.replicate 4 TileType.Terrain⟩ : LevelData)
        (1, 1)) ∧
    ((∀ c ∈ specCandidates (RRT.mk ⟨2, 2, List.replicate 4 TileType.Terrain⟩
          (0, 0) (1, 1) (1/4) 15 [some (0, 0), none, none, none]
          (.mk (0, 0) [])) (0, 0) (1, 1),
        Between (0, 0) (1, 1) c ∧
          InBounds (RRT.mk ⟨2, 2, List.replicate 4 TileType.Terrain⟩ (0, 0)
            (1, 1) (1/4) 15 [some (0, 0), none, none, none]
            (.mk (0, 0) [])).m_data c) ∧
      (∀ c, (RRT.mk ⟨2, 2, List.replicate 4 TileType.Terrain⟩ (0, 0) (1, 1)
          (1/4) 15 [some (0, 0), none, none, none]
          (.mk (0, 0) [])).calculateBranch (0, 0) (1, 1) = some c →
        Between (0, 0) (1, 1) c ∧
          InBounds (RRT.mk ⟨2, 2, List.replicate 4 TileType.Terrain⟩ (0, 0)
            (1, 1) (1/4) 15 [some (0, 0), none, none, none]
            (.mk (0, 0) [])).m_data c)) :=
  ⟨⟨by norm_num, by norm_num, by decide, by decide⟩,
    calculateBranch_candidates_inBounds
      (RRT.mk ⟨2, 2, List.replicate 4 TileType.Terrain⟩ (0, 0) (1, 1) (1/4)
        15 [some (0, 0), none, none, none] (.mk (0, 0) []))
      (0, 0) (1, 1) (by norm_num) (by norm_num) (by decide) (by decide)⟩

/-!  C2/C3: grafting and the occupancy/tree invariant. -/

lemma coordsList_append : ∀ (xs ys : List RRTTree),
    coordsList (xs ++ ys) = coordsList xs ++ coordsList ys
  | [], ys => by rw [List.nil_append, coordsList, List.nil_append]
  | x :: xs, ys => by
    rw [List.cons_append, coordsList, coordsList,
      coordsList_append xs ys, List.append_assoc]

lemma RRTTree.data_mem_coords (t : RRTTree) : t.data ∈ t.coords := by
  cases t with
  | mk d bs =>
    rw [RRTTree.data, RRTTree.coords]
    exact List.mem_cons_self _ _

mutual
theorem addAt_not_found : ∀ (t : RRTTree) (target c : Coord),
    target ∉ t.coords → addAt t target c = (t, false)
  | .mk data branches, target, c, h => by
    have hdata : ¬ (data = target) := by
      intro he
      exact h (by rw [RRTTree.coords, he]; exact List.mem_cons_self _ _)
    have hrest : target ∉ coordsList branches := by
      intro hm
      exact h (by rw [RRTTree.coords]; exact List.mem_cons_of_mem _ hm)
    rw [addAt, if_neg hdata, addAtList_not_found branches target c hrest]
theorem addAtList_not_found : ∀ (ts : List RRTTree) (target c : Coord),
    target ∉ coordsList ts → addAtList ts target c = (ts, false)
  | [], _, _, _ => by rw [addAtList]
  | t :: rest, target, c, h => by
    have h1 : target ∉ t.coords := by
      intro hm
      exact h (by rw [coordsList]; exact List.mem_append_left _ hm)
    have h2 : target ∉ coordsList rest := by
      intro hm
      exact h (by rw [coordsList]; exact List.mem_append_right _ hm)
    rw [addAtList, addAt_not_found t target c h1,
      addAtList_not_found rest target c h2]
    simp
end

mutual
theorem addAt_found : ∀ (t : RRTTree) (target c : Coord), target ∈ t.coords →
    (addAt t target c).2 = true ∧
      (addAt t target c).1.coords.Perm (c :: t.coords)
  | .mk data branches, target, c, h => by
    by_cases hdata : data = target
    · rw [addAt, if_pos hdata]
      refine ⟨rfl, ?_⟩
      show (RRTTree.mk data (branches ++ [.mk c []])).coords.Perm _
      rw [RRTTree.coords, coordsList_append]
      have hsing : coordsList [RRTTree.mk c []] = [c] := rfl
      rw [hsing, RRTTree.coords]
      exact ((List.perm_append_singleton c
        (coordsList branches)).cons data).trans
        (List.Perm.swap c data (coordsList branches))
    · have hmem : target ∈ coordsList branches := by
        rw [RRTTree.coords] at h
        rcases List.mem_cons.mp h with he | hm
        · exact absurd he.symm hdata
        · exact hm
      obtain ⟨hb2, hbp⟩ := addAtList_found branches target c hmem
      rw [addAt, if_neg hdata]
      refine ⟨hb2, ?_⟩
      show (RRTTree.mk data (addAtList branches target c).1).coords.Perm _
      rw [RRTTree.coords, RRTTree.coords]
      exact (hbp.cons data).trans
        (List.Perm.swap c data (coordsList branches))
theorem addAtList_found : ∀ (ts : List RRTTree) (target c : Coord),
    target ∈ coordsList ts →
    (addAtList ts target c).2 = true ∧
      (coordsList (addAtList ts target c).1).Perm (c :: coordsList ts)
  | [], target, c, h => by rw [coordsList] at h; cases h
  | t :: rest, target, c, h => by
    by_cases h1 : target ∈ t.coords
    · obtain ⟨h2, hp⟩ := addAt_found t target c h1
      rw [addAtList]
      simp only [h2, if_true]
      refine ⟨trivial, ?_⟩
      rw [coordsList, coordsList]
      exact hp.append_right (coordsList rest)
    · have hr := addAt_not_found t target c h1
      have h2 : target ∈ coordsList rest := by
        rw [coordsList] at h
        rcases List.mem_append.mp h with hm | hm
        · exact absurd hm h1
        · exact hm
      obtain ⟨h3, hp⟩ := addAtList_found rest target c h2
      rw [addAtList, hr]
      simp only [Bool.false_eq_true, if_false]
      refine ⟨h3, ?_⟩
      rw [coordsList, coordsList]
      exact (List.Perm.append_left t.coords hp).trans List.perm_middle
end

lemma getD_of_getElem? (l : List (Option Coord)) (i : ℕ) (c : Coord)
    (h : l[i]? = some (some c)) : l.getD i none = some c := by
  rw [List.getD_eq_getElem?_getD, h]
  rfl

lemma isSome_getD_iff (l : List (Option Coord)) (i : ℕ) :
    (l.getD i none).isSome = true ↔ ∃ c, l[i]? = some (some c) := by
  rw [List.getD_eq_getElem?_getD]
  cases h : l[i]? with
  | none => simp
  | some o =>
    cases o with
    | none => simp
    | some c => simp

lemma mem_occupiedList_iff (s : RRT) (c : Coord) :
    c ∈ occupiedList s ↔ ∃ i : ℕ, s.m_nodes[i]? = some (some c) := by
  unfold occupiedList
  rw [List.mem_filterMap]
  constructor
  · rintro ⟨o, ho, hid⟩
    cases o with
    | none => cases hid
    | some x =>
      have hx : x = c := by simpa using hid
      subst hx
      exact List.mem_iff_getElem?.mp ho
  · rintro ⟨i, hi⟩
    exact ⟨some c, List.mem_iff_getElem?.mpr ⟨i, hi⟩, rfl⟩

lemma nearFold_mem (pos : Coord) :
    ∀ (l : List Coord) (acc : Coord × ℤ),
      (l.foldl (nearStep pos) acc).1 = acc.1 ∨
        (l.foldl (nearStep pos) acc).1 ∈ l := by
  intro l
  induction l with
  | nil => intro acc; exact Or.inl rfl
  | cons c t ih =>
    intro acc
    rw [List.foldl_cons]
    rcases ih (nearStep pos acc c) with h | h
    · rw [h]
      unfold nearStep
      by_cases hd : |c.1 - pos.1| + |c.2 - pos.2| < acc.2
      · rw [if_pos hd]
        exact Or.inr (List.mem_cons_self _ _)
      · rw [if_neg hd]
        exact Or.inl rfl
    · exact Or.inr (List.mem_cons_of_mem _ h)

lemma determineNearest_mem_coords (s : RRT) (hInv : RRTInv s) (p : Coord) :
    s.determineNearest p ∈ s.m_tree.coords := by
  rw [determineNearest_eq_fold]
  rcases nearFold_mem p (occupiedList s) (s.m_tree.data, intMax) with h | h
  · rw [h]
    exact RRTTree.data_mem_coords s.m_tree
  · obtain ⟨i, hi⟩ := (mem_occupiedList_iff s _).mp h
    exact hInv.occ i _ hi

lemma RRTInv_prepare (s0 : RRT) (data : LevelData) (a b : Coord)
    (hWF : data.WF) (ha : InBounds data a) (hsd : 0 < s0.m_sampleDistance)
    (hbd : 1 ≤ s0.m_branchDistance) : RRTInv (s0.prepareTree data a b) := by
  obtain ⟨hw, hh, hlen⟩ := hWF
  have hflat : flatIdx data.width a < data.getTileCount := by
    unfold LevelData.getTileCount
    rw [hlen]
    exact flatIdx_lt data a ha
  have hflat' : flatIdx data.width a <
      (List.replicate data.getTileCount (none : Option Coord)).length := by
    rw [List.length_replicate]
    exact hflat
  unfold RRT.prepareTree
  refine ⟨hw, hh, hlen, ?_, hsd, hbd, ?_, ?_, ?_, ?_⟩
  · dsimp only
    rw [List.length_set, List.length_replicate]
    exact hlen
  · intro i c h
    dsimp only at h ⊢
    by_cases hi : i = flatIdx data.width a
    · subst hi
      rw [List.getElem?_set_self hflat'] at h
      have hc : c = a := by simpa using h.symm
      subst hc
      exact ⟨ha, rfl⟩
    · rw [List.getElem?_set_ne (fun he => hi he.symm),
        List.getElem?_replicate] at h
      split at h
      · cases h
      · cases h
  · intro c hc
    dsimp only at hc ⊢
    have hc' : c = a := by
      simpa [RRTTree.coords, coordsList] using hc
    subst hc'
    exact ⟨ha, List.getElem?_set_self hflat'⟩
  · intro i c h
    dsimp only at h ⊢
    by_cases hi : i = flatIdx data.width a
    · subst hi
      rw [List.getElem?_set_self hflat'] at h
      have hc : c = a := by simpa using h.symm
      subst hc
      exact RRTTree.data_mem_coords (RRTTree.mk c [])
    · rw [List.getElem?_set_ne (fun he => hi he.symm),
        List.getElem?_replicate] at h
      split at h
      · cases h
      · cases h
  · dsimp only
    show (RRTTree.mk a []).coords.Nodup
    simp [RRTTree.coords, coordsList]

lemma generateBranch_cases (s : RRT) (hInv : RRTInv s) (r1 r2 : ℕ) :
    s.generateBranch r1 r2 = s ∨
    ∃ (p c : Coord),
      p ∈ s.m_tree.coords ∧ InBounds s.m_data c ∧
      s.m_nodes.getD (flatIdx s.m_data.width c) none = none ∧
      (s.generateBranch r1 r2).m_tree = (addAt s.m_tree p c).1 ∧
      (s.generateBranch r1 r2).m_nodes =
        s.m_nodes.set (flatIdx s.m_data.width c) (some c) ∧
      (s.generateBranch r1 r2).m_data = s.m_data ∧
      (s.generateBranch r1 r2).m_start = s.m_start ∧
      (s.generateBranch r1 r2).m_end = s.m_end ∧
      (s.generateBranch r1 r2).m_sampleDistance = s.m_sampleDistance ∧
      (s.generateBranch r1 r2).m_branchDistance = s.m_branchDistance := by
  unfold RRT.generateBranch
  by_cases h1 : s.hasFinished = false ∧ s.m_start ≠ s.m_end
  · rw [if_pos h1]
    dsimp only
    by_cases h2 : s.m_nodes.getD (flatIdx s.m_data.width
        (((r1 % s.m_data.width : ℕ) : ℤ), ((r2 % s.m_data.height : ℕ) : ℤ)))
        none = none
    · rw [if_pos h2]
      cases hcb : s.calculateBranch
          (s.determineNearest
            (((r1 % s.m_data.width : ℕ) : ℤ),
              ((r2 % s.m_data.height : ℕ) : ℤ)))
          (((r1 % s.m_data.width : ℕ) : ℤ),
            ((r2 % s.m_data.height : ℕ) : ℤ)) with
      | none => exact Or.inl rfl
      | some c =>
        dsimp only
        by_cases h3 : s.m_nodes.getD (flatIdx s.m_data.width c) none = none
        · rw [if_pos h3]
          have hrand : InBounds s.m_data
              (((r1 % s.m_data.width : ℕ) : ℤ),
                ((r2 % s.m_data.height : ℕ) : ℤ)) := by
            refine ⟨Int.natCast_nonneg _, ?_, Int.natCast_nonneg _, ?_⟩
            · show ((r1 % s.m_data.width : ℕ) : ℤ) < (s.m_data.width : ℤ)
              exact_mod_cast Nat.mod_lt r1 hInv.wpos
            · show ((r2 % s.m_data.height : ℕ) : ℤ) < (s.m_data.height : ℤ)
              exact_mod_cast Nat.mod_lt r2 hInv.hpos
          have hnmem := determineNearest_mem_coords s hInv
            (((r1 % s.m_data.width : ℕ) : ℤ),
              ((r2 % s.m_data.height : ℕ) : ℤ))
          have hnin : InBounds s.m_data
              (s.determineNearest
                (((r1 % s.m_data.width : ℕ) : ℤ),
                  ((r2 % s.m_data.height : ℕ) : ℤ))) :=
            (hInv.mem _ hnmem).1
          have hcin : InBounds s.m_data c :=
            ((calculateBranch_candidates_inBounds_aux s _ _ hInv.sd hInv.bd
              hnin hrand).2 c hcb).2
          exact Or.inr ⟨_, c, hnmem, hcin, h3, rfl, rfl, rfl, rfl, rfl, rfl,
            rfl⟩
        · rw [if_neg h3]
          exact Or.inl rfl
    · rw [if_neg h2]
      exact Or.inl rfl
  · rw [if_neg h1]
    exact Or.inl rfl

lemma RRTInv_step (s : RRT) (hInv : RRTInv s) (r1 r2 : ℕ) :
    RRTInv (s.generateBranch r1 r2) := by
  rcases generateBranch_cases s hInv r1 r2 with heq |
    ⟨p, c, hp, hc, hempty, htree, hnodes, hdata, _, _, hsd, hbd⟩
  · rw [heq]
    exact hInv
  · have hflatc : flatIdx s.m_data.width c < s.m_nodes.length := by
      rw [hInv.nlen]
      exact flatIdx_lt _ _ hc
    have hcnot : c ∉ s.m_tree.coords := by
      intro hmem
      have hreg := (hInv.mem c hmem).2
      have hgd : s.m_nodes.getD (flatIdx s.m_data.width c) none = some c :=
        getD_of_getElem? _ _ _ hreg
      rw [hgd] at hempty
      cases hempty
    obtain ⟨hfound, hperm⟩ := addAt_found s.m_tree p c hp
    have hcoords : (s.generateBranch r1 r2).m_tree.coords.Perm
        (c :: s.m_tree.coords) := by
      rw [htree]
      exact hperm
    have hmemiff : ∀ x, x ∈ (s.generateBranch r1 r2).m_tree.coords ↔
        (x = c ∨ x ∈ s.m_tree.coords) := by
      intro x
      rw [hcoords.mem_iff, List.mem_cons]
    refine ⟨?_, ?_, ?_, ?_, ?_, ?_, ?_, ?_, ?_, ?_⟩
    · rw [hdata]; exact hInv.wpos
    · rw [hdata]; exact hInv.hpos
    · rw [hdata]; exact hInv.tlen
    · rw [hdata, hnodes, List.length_set]; exact hInv.nlen
    · rw [hsd]; exact hInv.sd
    · rw [hbd]; exact hInv.bd
    · intro i x h
      rw [hnodes] at h
      rw [hdata]
      by_cases hi : i = flatIdx s.m_data.width c
      · subst hi
        rw [List.getElem?_set_self hflatc] at h
        have hx : x = c := by simpa using h.symm
        subst hx
        exact ⟨hc, rfl⟩
      · rw [List.getElem?_set_ne (fun he => hi he.symm)] at h
        exact hInv.slot i x h
    · intro x hx
      rw [hdata, hnodes]
      rcases (hmemiff x).mp hx with rfl | hold
      · exact ⟨hc, List.getElem?_set_self hflatc⟩
      · obtain ⟨hin, hreg⟩ := hInv.mem x hold
        have hne : flatIdx s.m_data.width c ≠ flatIdx s.m_data.width x := by
          intro he
          exact hcnot (flatIdx_inj s.m_data x c hin hc he.symm ▸ hold)
        refine ⟨hin, ?_⟩
        rw [List.getElem?_set_ne hne]
        exact hreg
    · intro i x h
      rw [hnodes] at h
      by_cases hi : i = flatIdx s.m_data.width c
      · subst hi
        rw [List.getElem?_set_self hflatc] at h
        have hx : x = c := by simpa using h.symm
        subst hx
        exact (hmemiff x).mpr (Or.inl rfl)
      · rw [List.getElem?_set_ne (fun he => hi he.symm)] at h
        exact (hmemiff x).mpr (Or.inr (hInv.occ i x h))
    · exact hcoords.nodup_iff.mpr (List.nodup_cons.mpr ⟨hcnot, hInv.nodup⟩)

lemma Reachable_inv : ∀ s : RRT, Reachable s → RRTInv s := by
  intro s h
  induction h with
  | prepared s0 data start stop hdata hstart hstop hsd hbd =>
    exact RRTInv_prepare s0 data start stop hdata hstart hsd hbd
  | step s r1 r2 hr ih => exact RRTInv_step s ih r1 r2

lemma occ_consistent_of_reachable (s : RRT) (h : Reachable s) :
    OccTreeConsistent s := by
  have hInv := Reachable_inv s h
  constructor
  · intro i hi
    constructor
    · intro hsome
      obtain ⟨c, hc⟩ := (isSome_getD_iff s.m_nodes i).mp hsome
      exact ⟨c, hInv.occ i c hc, (hInv.slot i c hc).2⟩
    · rintro ⟨c, hcmem, hflat⟩
      have hreg := (hInv.mem c hcmem).2
      rw [hflat] at hreg
      exact (isSome_getD_iff s.m_nodes i).mpr ⟨c, hreg⟩
  · exact hInv.nodup

/-- C3: in every state reachable by `prepareTree` followed by any sequence
of `generateBranch` calls, an occupancy slot is occupied iff some tree node
holds a coordinate with that flat index, no two tree nodes hold the same
coordinate, and every further `generateBranch` call preserves this
invariant. -/
theorem occupancy_tree_invariant (s : RRT) (h : Reachable s) :
    OccTreeConsistent s ∧
    ∀ r1 r2 : ℕ, OccTreeConsistent (s.generateBranch r1 r2) :=
  ⟨occ_consistent_of_reachable s h,
    fun r1 r2 => occ_consistent_of_reachable _ (Reachable.step s r1 r2 h)⟩

/-- A small prepared session (2×1 all-`Terrain` grid, `start = (0,0)`,
`goal = (1,0)`) used as the concrete input of witnesses. -/
def sampleSession : RRT :=
  (RRT.mk ⟨2, 1, [TileType.Terrain, TileType.Terrain]⟩ (0, 0) (0, 0)
    (1/4) 15 [] (.mk (0, 0) [])).prepareTree
    ⟨2, 1, [TileType.Terrain, TileType.Terrain]⟩ (0, 0) (1, 0)

theorem occupancy_tree_invariant_witness :
    OccTreeConsistent sampleSession ∧
    ∀ r1 r2 : ℕ, OccTreeConsistent (sampleSession.generateBranch r1 r2) :=
  occupancy_tree_invariant sampleSession
    (Reachable.prepared
      (RRT.mk ⟨2, 1, [TileType.Terrain, TileType.Terrain]⟩ (0, 0) (0, 0)
        (1/4) 15 [] (.mk (0, 0) []))
      ⟨2, 1, [TileType.Terrain, TileType.Terrain]⟩ (0, 0) (1, 0)
      ⟨by decide, by decide, by decide⟩ (by decide) (by decide)
      (by norm_num) (by norm_num))

lemma generateBranch_noop (s : RRT)
    (h : s.hasFinished = true ∨ s.m_start = s.m_end) (r1 r2 : ℕ) :
    s.generateBranch r1 r2 = s := by
  unfold RRT.generateBranch
  rw [if_neg]
  rintro ⟨hf, hne⟩
  rcases h with h | h
  · rw [h] at hf
    cases hf
  · exact hne h

/-- C2: on any reachable session state, a single `generateBranch()` call
either leaves the whole state (in particular tree and occupancy index)
unchanged, or grafts exactly one new node — the tree's coordinate multiset
gains exactly one coordinate `c`, whose slot was previously empty and is now
registered; moreover the call is a no-op whenever `hasFinished()` is true or
`start = goal`, and after `hasFinished()` any number of repeated calls
leaves the state unchanged. -/
theorem generateBranch_atomic (s : RRT) (h : Reachable s) :
    (∀ r1 r2 : ℕ,
      s.generateBranch r1 r2 = s ∨
      ∃ c : Coord,
        (s.generateBranch r1 r2).m_tree.coords.Perm (c :: s.m_tree.coords) ∧
        (s.generateBranch r1 r2).m_nodes =
          s.m_nodes.set (flatIdx s.m_data.width c) (some c) ∧
        s.m_nodes.getD (flatIdx s.m_data.width c) none = none) ∧
    (s.hasFinished = true ∨ s.m_start = s.m_end →
      ∀ r1 r2 : ℕ, s.generateBranch r1 r2 = s) ∧
    (s.hasFinished = true →
      ∀ rs : List (ℕ × ℕ),
        rs.foldl (fun t r => t.generateBranch r.1 r.2) s = s) := by
  have hInv := Reachable_inv s h
  refine ⟨?_, ?_, ?_⟩
  · intro r1 r2
    rcases generateBranch_cases s hInv r1 r2 with heq |
      ⟨p, c, hp, hc, hempty, htree, hnodes, hdata, _, _, _, _⟩
    · exact Or.inl heq
    · refine Or.inr ⟨c, ?_, hnodes, hempty⟩
      rw [htree]
      exact (addAt_found s.m_tree p c hp).2
  · intro hno r1 r2
    exact generateBranch_noop s hno r1 r2
  · intro hf rs
    induction rs with
    | nil => rfl
    | cons r rest ih =>
      rw [List.foldl_cons, generateBranch_noop s (Or.inl hf) r.1 r.2]
      exact ih

theorem generateBranch_atomic_witness :
    (∀ r1 r2 : ℕ,
      sampleSession.generateBranch r1 r2 = sampleSession ∨
      ∃ c : Coord,
        (sampleSession.generateBranch r1 r2).m_tree.coords.Perm
          (c :: sampleSession.m_tree.coords) ∧
        (sampleSession.generateBranch r1 r2).m_nodes =
          sampleSession.m_nodes.set
            (flatIdx sampleSession.m_data.width c) (some c) ∧
        sampleSession.m_nodes.getD
          (flatIdx sampleSession.m_data.width c) none = none) ∧
    (sampleSession.hasFinished = true ∨
        sampleSession.m_start = sampleSession.m_end →
      ∀ r1 r2 : ℕ, sampleSession.generateBranch r1 r2 = sampleSession) ∧
    (sampleSession.hasFinished = true →
      ∀ rs : List (ℕ × ℕ),
        rs.foldl (fun t r => t.generateBranch r.1 r.2) sampleSession =
          sampleSession) :=
  generateBranch_atomic sampleSession
    (Reachable.prepared
      (RRT.mk ⟨2, 1, [TileType.Terrain, TileType.Terrain]⟩ (0, 0) (0, 0)
        (1/4) 15 [] (.mk (0, 0) []))
      ⟨2, 1, [TileType.Terrain, TileType.Terrain]⟩ (0, 0) (1, 0)
      ⟨by decide, by decide, by decide⟩ (by decide) (by decide)
      (by norm_num) (by norm_num))

/-!  C6: a grafted branch can be longer than `m_branchDistance`
(code bug). -/

lemma truncQ_of_nonneg (q : ℚ) (h : 0 ≤ q) : truncQ q = ⌊q⌋ := if_pos h

/-- The failing session for C6: a 4×5 all-`Terrain` grid, engine parameters
`sampleDistance = 1/4`, `branchDistance = 1` (both satisfying the
constructor assertion), prepared with `start = (3, 4)`, `goal = (0, 4)`. -/
def sC6 : RRT :=
  (RRT.mk ⟨4, 5, List.replicate 20 TileType.Terrain⟩ (0, 0) (0, 0) (1/4) 1 []
    (.mk (0, 0) [])).prepareTree ⟨4, 5, List.replicate 20 TileType.Terrain⟩
    (3, 4) (0, 4)

lemma sC6_lerp (t : ℚ) (h0 : 0 < t) (h1 : t ≤ 1/4) :
    lerp (3, 4) (0, 0) t = ((2 : ℤ), (3 : ℤ)) := by
  unfold lerp
  have hx : ((((3, 4) : Coord).1 : ℚ) +
      ((((0, 0) : Coord).1 - ((3, 4) : Coord).1 : ℤ) : ℚ) * t) = 3 - 3 * t := by
    push_cast
    ring
  have hy : ((((3, 4) : Coord).2 : ℚ) +
      ((((0, 0) : Coord).2 - ((3, 4) : Coord).2 : ℤ) : ℚ) * t) = 4 - 4 * t := by
    push_cast
    ring
  rw [hx, hy, truncQ_of_nonneg _ (by linarith), truncQ_of_nonneg _ (by linarith)]
  have hfx : ⌊(3 : ℚ) - 3 * t⌋ = 2 := by
    rw [Int.floor_eq_iff]
    constructor
    · push_cast
      linarith
    · push_cast
      linarith
  have hfy : ⌊(4 : ℚ) - 4 * t⌋ = 3 := by
    rw [Int.floor_eq_iff]
    constructor
    · push_cast
      linarith
    · push_cast
      linarith
  rw [hfx, hfy]

lemma sC6_sqrt : floatSqrt (25 : ℚ) = 5 := by
  unfold floatSqrt
  rw [show ((25 : ℚ) * 2 ^ 46) = ((25 * 2 ^ 46 : ℤ) : ℚ) by norm_num,
    Int.floor_intCast]
  rw [show ((25 * 2 ^ 46 : ℤ)).toNat = (5 * 2 ^ 23) * (5 * 2 ^ 23) from rfl]
  rw [Nat.sqrt_eq]
  norm_num

lemma sC6_calculateBranch :
    sC6.calculateBranch (3, 4) (0, 0) = some ((2 : ℤ), (3 : ℤ)) := by
  have hsd : sC6.m_sampleDistance = 1/4 := rfl
  have hbd : sC6.m_branchDistance = 1 := rfl
  have hvalid : sC6.isValidTile ((2 : ℤ), (3 : ℤ)) TileType.Terrain = true :=
    by decide
  have hne : ¬ ((((2 : ℤ), (3 : ℤ)) : Coord) = (((3, 4) : Coord))) := by
    decide
  unfold RRT.calculateBranch
  dsimp only
  rw [show sC6.m_data.getTile ((3, 4) : Coord).1.toNat
      ((3, 4) : Coord).2.toNat = TileType.Terrain from by decide]
  rw [show ((((0, 0) : Coord).1 - ((3, 4) : Coord).1) *
      (((0, 0) : Coord).1 - ((3, 4) : Coord).1) +
      (((0, 0) : Coord).2 - ((3, 4) : Coord).2) *
      (((0, 0) : Coord).2 - ((3, 4) : Coord).2) : ℤ) = 25 from by norm_num]
  rw [show ((25 : ℤ) : ℚ) = (25 : ℚ) from by norm_num]
  rw [sC6_sqrt, hsd, hbd]
  rw [show (⌈min (5 : ℚ) 1 / (1/4)⌉.toNat + 1) = 4 + 1 from by
    norm_num [min_def]
    decide]
  rw [calcLoop]
  simp only [hsd, hbd]
  rw [if_pos (by norm_num : (0 : ℚ) < 5 ∧ (0 : ℚ) < 1)]
  rw [show min (min ((0 : ℚ) + 1/4) 5) 1 = 1/4 from by norm_num [min_def]]
  rw [show (1/4 : ℚ) / 5 = 1/20 from by norm_num]
  rw [sC6_lerp (1/20) (by norm_num) (by norm_num)]
  rw [if_pos hne, if_pos hvalid]
  rw [calcLoop]
  simp only [hsd, hbd]
  rw [if_pos (by norm_num : (1/4 : ℚ) < 5 ∧ (1/4 : ℚ) < 1)]
  rw [show min (min ((1/4 : ℚ) + 1/4) 5) 1 = 1/2 from by norm_num [min_def]]
  rw [show (1/2 : ℚ) / 5 = 1/10 from by norm_num]
  rw [sC6_lerp (1/10) (by norm_num) (by norm_num)]
  rw [if_pos hne, if_pos hvalid]
  rw [calcLoop]
  simp only [hsd, hbd]
  rw [if_pos (by norm_num : (1/2 : ℚ) < 5 ∧ (1/2 : ℚ) < 1)]
  rw [show min (min ((1/2 : ℚ) + 1/4) 5) 1 = 3/4 from by norm_num [min_def]]
  rw [show (3/4 : ℚ) / 5 = 3/20 from by norm_num]
  rw [sC6_lerp (3/20) (by norm_num) (by norm_num)]
  rw [if_pos hne, if_pos hvalid]
  rw [calcLoop]
  simp only [hsd, hbd]
  rw [if_pos (by norm_num : (3/4 : ℚ) < 5 ∧ (3/4 : ℚ) < 1)]
  rw [show min (min ((3/4 : ℚ) + 1/4) 5) 1 = 1 from by norm_num [min_def]]
  rw [show (1 : ℚ) / 5 = 1/5 from by norm_num]
  rw [sC6_lerp (1/5) (by norm_num) (by norm_num)]
  rw [if_pos hne, if_pos hvalid]
  rw [calcLoop]
  simp only [hsd, hbd]
  rw [if_neg (by norm_num : ¬ ((1 : ℚ) < 5 ∧ (1 : ℚ) < 1))]

/-- C6 (evaluation of the code at a failing input): on `sC6`
(`branchDistance = 1`, which satisfies the constructor assertion
`branchDistance >= 1`, and whose header comment calls it "The maximum
distance of a branch"), the `generateBranch` call with both random draws `0`
grafts the node `(2, 3)` as a child of the root `(3, 4)` and registers it:
the sampling cursor is indeed clamped to `min(magnitude, branchDistance) =
1`, but the interpolated point `(2.4, 3.2)` is truncated toward zero to
`(2, 3)`, whose Euclidean distance to its parent is `√2 > 1` — the squared
distance `2` exceeds `branchDistance² = 1`, contradicting the documented
meaning of the parameter. -/
lemma generateBranch_eq_of (s : RRT) (r1 r2 : ℕ) (p c : Coord)
    (h1 : s.hasFinished = false) (h2 : s.m_start ≠ s.m_end)
    (hrand : s.m_nodes.getD (flatIdx s.m_data.width
      (((r1 % s.m_data.width : ℕ) : ℤ), ((r2 % s.m_data.height : ℕ) : ℤ)))
      none = none)
    (hnear : s.determineNearest
      (((r1 % s.m_data.width : ℕ) : ℤ), ((r2 % s.m_data.height : ℕ) : ℤ))
      = p)
    (hcb : s.calculateBranch p
      (((r1 % s.m_data.width : ℕ) : ℤ), ((r2 % s.m_data.height : ℕ) : ℤ))
      = some c)
    (hnew : s.m_nodes.getD (flatIdx s.m_data.width c) none = none) :
    s.generateBranch r1 r2 =
      { s with
        m_tree := (addAt s.m_tree p c).1
        m_nodes := s.m_nodes.set (flatIdx s.m_data.width c) (some c) } := by
  unfold RRT.generateBranch
  rw [if_pos ⟨h1, h2⟩]
  dsimp only
  rw [if_pos hrand, hnear, hcb]
  dsimp only
  rw [if_pos hnew]

lemma sC6_state : sC6.generateBranch 0 0 =
    { sC6 with
      m_tree := (addAt sC6.m_tree (3, 4) (2, 3)).1
      m_nodes := sC6.m_nodes.set (flatIdx sC6.m_data.width (2, 3))
        (some (2, 3)) } :=
  generateBranch_eq_of sC6 0 0 (3, 4) (2, 3) (by decide) (by decide)
    (by decide) (by decide) sC6_calculateBranch (by decide)

/-- C6 (evaluation of the code at a failing input): on `sC6`
(`branchDistance = 1`, which satisfies the constructor assertion
`branchDistance >= 1` and whose header comment calls it "The maximum
distance of a branch"), the `generateBranch` call with both random draws `0`
grafts the node `(2, 3)` as a child of the root `(3, 4)` and registers it:
the sampling cursor is indeed clamped to `min(magnitude, branchDistance) =
1`, but the interpolated point `(2.4, 3.2)` is truncated toward zero to
`(2, 3)`, whose Euclidean distance to its parent is `√2 > 1` — the squared
distance `2` exceeds `branchDistance² = 1`, contradicting the claim that a
grafted edge is never longer than the maximum branch length. -/
theorem generateBranch_exceeds_branchDistance :
    (sC6.generateBranch 0 0).m_tree =
      RRTTree.mk (3, 4) [RRTTree.mk (2, 3) []] ∧
    (sC6.generateBranch 0 0).m_nodes.getD (flatIdx 4 (2, 3)) none =
      some (2, 3) ∧
    sC6.m_branchDistance = 1 ∧
    euclidSq (2, 3) (3, 4) = 2 ∧
    ¬ ((euclidSq (2, 3) (3, 4) : ℚ) ≤ sC6.m_branchDistance ^ 2) := by
  refine ⟨?_, ?_, rfl, by decide, ?_⟩
  · rw [sC6_state]
    rfl
  · rw [sC6_state]
    decide
  · rw [show sC6.m_branchDistance = 1 from rfl,
      show euclidSq (2, 3) (3, 4) = 2 from by decide]
    norm_num
